import Mathlib

/-!
# appconfig: bootstrap of the process-wide `AppConfig`

A shallow embedding of `src/appconfig/appconfig.go` (`Init`,
`AppConfig.ScheduleClosing`, `AppConfig.Close`) and theorems about the
authorization-token table, the per-token writer provisioning loop and the
closing registry.

Modelling conventions
* A Go `map[string]V` is a `GoMap V`: a list of key/value entries in which a
  key occurs at most once; `m[k] = v` is `GoMap.set`, `len(m)` is `GoMap.len`.
* `range` over a map visits every key once, in an order chosen by the runtime:
  a `RangeOrder`, a function returning a permutation of the keys.
* Go strings are Lean `String`s (sequences of Unicode code points).
* Collaborators outside the file (viper, os, uuid, logging, geo, events and the
  `Close` methods of registered closers) are the fields of `Env`; every call
  the code makes to them is recorded in the `World` that is threaded through.
-/

namespace appconfig

/-! ## Go maps with string keys -/

/-- The keys of a list of map entries. -/
def entryKeys {V : Type} (l : List (String × V)) : List String := l.map Prod.fst

/-- Go `map[string]V`: its entries, each key at most once. -/
structure GoMap (V : Type) where
  entries : List (String × V)
  nodup : (entryKeys entries).Nodup
deriving DecidableEq, Repr

namespace GoMap

variable {V : Type}

/-- The map literal `map[string]V{}`. -/
def empty : GoMap V := ⟨[], List.nodup_nil⟩

/-- The keys present in the map. -/
def keys (m : GoMap V) : List String := entryKeys m.entries

/-- Go `len(m)`. -/
def len (m : GoMap V) : Nat := m.entries.length

/-- Go `v, ok := m[k]`. -/
def get? (m : GoMap V) (k : String) : Option V :=
  (m.entries.find? (fun e => e.1 == k)).map Prod.snd

/-- Go `m[k] = v`: overwrite the entry of `k`, or add one. -/
def set (m : GoMap V) (k : String) (v : V) : GoMap V :=
  ⟨m.entries.filter (fun e => e.1 != k) ++ [(k, v)], by
    have hf : ∀ l : List (String × V),
        entryKeys (l.filter (fun e => e.1 != k)) = (entryKeys l).filter (fun x => x != k) := by
      intro l
      induction l with
      | nil => rfl
      | cons e l ih =>
        by_cases h : e.1 = k <;> simp_all [entryKeys, List.filter_cons]
    have hs : entryKeys (m.entries.filter (fun e => e.1 != k) ++ [(k, v)])
        = (entryKeys m.entries).filter (fun x => x != k) ++ [k] := by
      rw [← hf]; simp [entryKeys]
    rw [hs]
    refine List.Nodup.append (m.nodup.filter _) (List.nodup_singleton k) ?_
    intro x hx hk
    simp at hx hk
    exact hx.2 hk⟩

/-- The values stored in the map. -/
def values (m : GoMap V) : List V := m.entries.map Prod.snd

end GoMap

/-- The order in which a `for k := range m` loop visits the keys of a map:
Go leaves it unspecified, but every key is visited exactly once. -/
structure RangeOrder where
  order : List String → List String
  perm : ∀ ks, (order ks).Perm ks

/-! ## `strings.TrimSpace` -/

/-- Go `unicode.IsSpace`: the code points with the Unicode White_Space property. -/
def isSpace (c : Char) : Bool :=
  let n := c.toNat
  (9 ≤ n && n ≤ 13) || n == 0x20 || n == 0x85 || n == 0xA0 || n == 0x1680 ||
  (0x2000 ≤ n && n ≤ 0x200A) || n == 0x2028 || n == 0x2029 || n == 0x202F ||
  n == 0x205F || n == 0x3000

/-- Go `strings.TrimSpace`: the string without its leading and trailing white space. -/
def TrimSpace (s : String) : String :=
  ⟨((s.data.dropWhile isSpace).reverse.dropWhile isSpace).reverse⟩

/-! ## The authorization table (`Init`, lines 79-93) -/

/-- The loop `for _, token := range tokensArr` of `Init`: every entry that is
not the empty string is trimmed and stored as a key. -/
def Init.collectTokens : List String → GoMap Bool → GoMap Bool
  | [], authorizedTokens => authorizedTokens
  | token :: rest, authorizedTokens =>
    if token != "" then
      Init.collectTokens rest (authorizedTokens.set (TrimSpace token) true)
    else
      Init.collectTokens rest authorizedTokens

/-- The authorization block of `Init` (lines 79-91): the table built from the
`server.auth` list `tokensArr`, and the lines the block logs. `generatedToken`
is the value of `uuid.New().String()`, used only when no key was collected. -/
def Init.authorizedTokens (tokensArr : List String) (generatedToken : String) :
    GoMap Bool × List String :=
  let authorizedTokens := Init.collectTokens tokensArr GoMap.empty
  if authorizedTokens.len == 0 then
    (authorizedTokens.set generatedToken true,
      ["Empty 'server.tokens' config key. Auto generate token: " ++ generatedToken])
  else
    (authorizedTokens, [])

/-! ## Collaborators and the state of the process -/

/-- A non-nil Go `error`, identified by its message. -/
abbrev Error := String

deriving instance DecidableEq for Except

/-- An `io.WriteCloser` handle returned by `logging.NewWriter`. -/
structure Writer where
  id : Nat
deriving DecidableEq, Repr

/-- A non-nil `geo.Resolver` value. -/
structure Resolver where
  id : Nat
deriving DecidableEq, Repr

/-- The struct `logging.Config`; fields left out of a literal are zero. -/
structure LoggingConfig where
  LoggerName : String := ""
  ServerName : String := ""
  FileDir : String := ""
  RotationMin : Int := 0
  MaxBackups : Int := 0
deriving DecidableEq, Repr

/-- Modelled from the spec: the `events` package is not part of the sources.
`events.NewMultipleAsyncLogger` "accepts a mapping Token -> ResourceHandle,
fans out writes per token, exposes one release operation closing all
underlying handles"; the consumer is identified by the mapping it was built from. -/
structure Consumer where
  writers : GoMap Writer
deriving DecidableEq, Repr

/-- Modelled from the spec: the constructor of the multiplexed consumer (see `Consumer`). -/
def NewMultipleAsyncLogger (writers : GoMap Writer) : Consumer := ⟨writers⟩

/-- Modelled from the spec: the handles closed by the release operation of the
multiplexed consumer, "one release operation closing all underlying handles". -/
def Consumer.released (c : Consumer) : List Writer := c.writers.values

/-- A non-nil value of interface type `io.Closer`. -/
inductive Closer where
  | writer (w : Writer)
  | consumer (c : Consumer)
  | other (id : Nat)
deriving DecidableEq, Repr

/-- The struct `AppConfig`; interface fields are `none` when nil. -/
structure AppConfig where
  ServerName : String := ""
  Authority : String := ""
  AuthorizedTokens : GoMap Bool := GoMap.empty
  EventsConsumer : Option Consumer := none
  GeoResolver : Option Resolver := none
  closeMe : List Closer := []
deriving DecidableEq, Repr

/-- The viper configuration store as `Init` uses it. -/
structure Viper where
  /-- Values coming from the configuration file, the environment or flags. -/
  values : String → Option String
  /-- Values registered with `viper.SetDefault`. -/
  defaults : String → Option String
  /-- Result of `viper.GetStringSlice`. -/
  stringSlice : String → List String
  /-- Conversion of a stored value to an integer. -/
  toInt : String → Int

/-- Go `viper.SetDefault(key, value)`. -/
def Viper.SetDefault (v : Viper) (key value : String) : Viper :=
  { v with defaults := fun k => if k = key then some value else v.defaults k }

/-- Go `viper.GetString(key)`. -/
def Viper.GetString (v : Viper) (key : String) : String :=
  match v.values key with
  | some s => s
  | none => (v.defaults key).getD ""

/-- Go `viper.GetInt64(key)`. -/
def Viper.GetInt64 (v : Viper) (key : String) : Int := v.toInt (v.GetString key)

/-- Go `viper.GetInt(key)`. -/
def Viper.GetInt (v : Viper) (key : String) : Int := v.toInt (v.GetString key)

/-- Go `viper.GetStringSlice(key)`. -/
def Viper.GetStringSlice (v : Viper) (key : String) : List String := v.stringSlice key

/-- The collaborators of `Init` and `Close` that live outside the file. -/
structure Env where
  /-- Result of `os.Hostname()`. -/
  hostname : Except Error String
  /-- Result of `logging.InitGlobalLogger`: `none` is a nil error. -/
  initGlobalLogger : LoggingConfig → Option Error
  /-- Result of `geo.CreateResolver(path)`: the resolver value and the error. -/
  createResolver : String → Option Resolver × Option Error
  /-- Value of `uuid.New().String()`. -/
  uuid : String
  /-- Result of `logging.NewWriter(cfg)`, given the configs of the earlier invocations. -/
  newWriter : List LoggingConfig → LoggingConfig → Except Error Writer
  /-- Order of `range` over a map. -/
  range : RangeOrder
  /-- Result of `cl.Close()`, given the closers closed earlier: `none` is a nil error. -/
  closeResult : List Closer → Closer → Option Error

/-- The state of the process that `Init` and `Close` read and write. -/
structure World where
  /-- The global viper store. -/
  viper : Viper
  /-- The package variable `Instance`; `none` is the nil pointer. -/
  Instance : Option AppConfig
  /-- Lines written with `log.Println` and `log.Fatal`. -/
  log : List String
  /-- Invocations of `logging.NewWriter` so far, each with its result. -/
  writerCalls : List (LoggingConfig × Except Error Writer)
  /-- Consumers created by `events.NewMultipleAsyncLogger` so far. -/
  consumers : List Consumer
  /-- Closers whose `Close` method has been invoked so far. -/
  closeCalls : List Closer

/-- Go `log.Println(line)`. -/
def World.println (w : World) (line : String) : World :=
  { w with log := w.log ++ [line] }

/-- How a call of `Init` ends. -/
inductive Outcome where
  /-- `Init` returned `err` (`none` is nil). -/
  | returned (err : Option Error)
  /-- `log.Fatal(err)` terminated the process. -/
  | exited (err : Error)
deriving DecidableEq, Repr

/-! ## `setDefaultParams`, `Init`, `ScheduleClosing`, `Close` -/

/-- Go `setDefaultParams`. -/
def setDefaultParams (v : Viper) : Viper :=
  let v := v.SetDefault "server.port" "8001"
  let v := v.SetDefault "geo.maxmind_path" "/home/tracker/app/res/"
  let v := v.SetDefault "log.path" "/home/tracker/logs/events"
  v.SetDefault "log.rotation_min" "5"

/-- Go `(a *AppConfig) ScheduleClosing(c io.Closer)`. -/
def AppConfig.ScheduleClosing (a : AppConfig) (c : Closer) : AppConfig :=
  { a with closeMe := a.closeMe ++ [c] }

/-- The `logging.Config` literal passed to `logging.NewWriter` for `token` (lines 98-102). -/
def Init.writerConfig (serverName : String) (v : Viper) (token : String) : LoggingConfig :=
  { LoggerName := "event-" ++ token
    ServerName := serverName
    FileDir := v.GetString "log.path"
    RotationMin := v.GetInt64 "log.rotation_min" }

/-- The loop `for token := range appConfig.AuthorizedTokens` of `Init` (lines
96-107), run over the tokens in the order `range` yields them. Every factory
invocation is recorded; a factory error ends the loop and is returned. -/
def Init.provision (env : Env) (serverName : String) :
    List String → GoMap Writer → World → Except Error (GoMap Writer) × World
  | [], writers, w => (.ok writers, w)
  | token :: rest, writers, w =>
    let cfg := Init.writerConfig serverName w.viper token
    let result := env.newWriter (w.writerCalls.map Prod.fst) cfg
    let w := { w with writerCalls := w.writerCalls ++ [(cfg, result)] }
    match result with
    | .error err => (.error err, w)
    | .ok eventLogWriter => Init.provision env serverName rest (writers.set token eventLogWriter) w

/-- Go `Init`. -/
def Init (env : Env) (w : World) : Outcome × World :=
  let w := { w with viper := setDefaultParams w.viper }
  let (serverName, w) :=
    match env.hostname with
    | .ok name => (name, w)
    | .error err => ("unnamed-server", w.println ("Unable to get os hostname " ++ err))
  match env.initGlobalLogger
      { LoggerName := "main"
        ServerName := serverName
        FileDir := w.viper.GetString "server.log.path"
        RotationMin := w.viper.GetInt64 "server.log.rotation_min"
        MaxBackups := w.viper.GetInt "server.log.max_backups" } with
  | some err => (.exited err, w.println err)
  | none =>
    let w := w.println " *** Creating new AppConfig *** "
    let w := w.println ("Server Name: " ++ serverName)
    let publicUrl := w.viper.GetString "server.public_url"
    let w :=
      if publicUrl == "" then w.println "Server public url: will be taken from Host header"
      else w.println ("Server public url: " ++ publicUrl)
    let appConfig : AppConfig := {}
    let appConfig := { appConfig with ServerName := serverName }
    let port := w.viper.GetString "port"
    let port := if port == "" then w.viper.GetString "server.port" else port
    let appConfig := { appConfig with Authority := "0.0.0.0:" ++ port }
    let (geoResolver, err) := env.createResolver (w.viper.GetString "geo.maxmind_path")
    let w :=
      match err with
      | some e => w.println ("Run without geo resolver " ++ e)
      | none => w
    let appConfig := { appConfig with GeoResolver := geoResolver }
    -- authorization
    let tokensArr := w.viper.GetStringSlice "server.auth"
    let (authorizedTokens, lines) := Init.authorizedTokens tokensArr env.uuid
    let w := { w with log := w.log ++ lines }
    let appConfig := { appConfig with AuthorizedTokens := authorizedTokens }
    -- loggers per token
    match Init.provision env serverName (env.range.order appConfig.AuthorizedTokens.keys)
        GoMap.empty w with
    | (.error err, w) => (.returned (some err), w)
    | (.ok writers, w) =>
      let consumer := NewMultipleAsyncLogger writers
      let w := { w with consumers := w.consumers ++ [consumer] }
      let appConfig := { appConfig with EventsConsumer := some consumer }
      let appConfig := appConfig.ScheduleClosing (.consumer consumer)
      (.returned none, { w with Instance := some appConfig })

/-- The loop of `AppConfig.Close`: every closer is closed in turn, an error is
logged and the loop goes on. -/
def AppConfig.Close.loop (env : Env) : List Closer → World → World
  | [], w => w
  | cl :: rest, w =>
    let err := env.closeResult w.closeCalls cl
    let w := { w with closeCalls := w.closeCalls ++ [cl] }
    match err with
    | some e => AppConfig.Close.loop env rest (w.println e)
    | none => AppConfig.Close.loop env rest w

/-- Go `(a *AppConfig) Close()`. -/
def AppConfig.Close (a : AppConfig) (env : Env) (w : World) : World :=
  AppConfig.Close.loop env a.closeMe w

/-! ## Auxiliary definitions for the statements -/

/-- Every value stored in the map is `true`. -/
def GoMap.AllTrue (m : GoMap Bool) : Prop := ∀ e ∈ m.entries, e.2 = true

/-- The server name `Init` settles on (lines 38-42): the host name, or the
placeholder when `os.Hostname` fails. -/
def Init.serverName (env : Env) : String :=
  match env.hostname with
  | .ok name => name
  | .error _ => "unnamed-server"

/-- The `logging.Config` literal `Init` passes to `logging.InitGlobalLogger`
(lines 44-49), when `Init` is entered in the world `w`. -/
def Init.globalLoggerConfig (env : Env) (w : World) : LoggingConfig :=
  { LoggerName := "main"
    ServerName := Init.serverName env
    FileDir := (setDefaultParams w.viper).GetString "server.log.path"
    RotationMin := (setDefaultParams w.viper).GetInt64 "server.log.rotation_min"
    MaxBackups := (setDefaultParams w.viper).GetInt "server.log.max_backups" }

/-- The path `Init` passes to `geo.CreateResolver` (line 71). -/
def Init.geoPath (w : World) : String :=
  (setDefaultParams w.viper).GetString "geo.maxmind_path"

/-- The table `Init` builds when entered in the world `w` (lines 79-93). -/
def Init.table (env : Env) (w : World) : GoMap Bool :=
  (Init.authorizedTokens (w.viper.GetStringSlice "server.auth") env.uuid).1

/-- The writers returned by the successful invocations of a factory trace. -/
def okWriters (calls : List (LoggingConfig × Except Error Writer)) : List Writer :=
  calls.filterMap fun x =>
    match x.2 with
    | .ok wr => some wr
    | .error _ => none

/-- A run of the provisioning loop, as a relation: from the factory history
`hist`, the tokens still to visit and the writers stored so far, to the
factory invocations made and the result of the loop. -/
inductive Run (env : Env) (serverName : String) (v : Viper) :
    List LoggingConfig → List String → GoMap Writer →
    List (LoggingConfig × Except Error Writer) → Except Error (GoMap Writer) → Prop where
  | done (hist : List LoggingConfig) (writers : GoMap Writer) :
      Run env serverName v hist [] writers [] (.ok writers)
  | fail (hist : List LoggingConfig) (token : String) (rest : List String)
      (writers : GoMap Writer) (err : Error)
      (h : env.newWriter hist (Init.writerConfig serverName v token) = .error err) :
      Run env serverName v hist (token :: rest) writers
        [(Init.writerConfig serverName v token, .error err)] (.error err)
  | step (hist : List LoggingConfig) (token : String) (rest : List String)
      (writers : GoMap Writer) (wr : Writer)
      (calls : List (LoggingConfig × Except Error Writer))
      (r : Except Error (GoMap Writer))
      (h : env.newWriter hist (Init.writerConfig serverName v token) = .ok wr)
      (hrest : Run env serverName v (hist ++ [Init.writerConfig serverName v token]) rest
        (writers.set token wr) calls r) :
      Run env serverName v hist (token :: rest) writers
        ((Init.writerConfig serverName v token, .ok wr) :: calls) r

/-! ## Concrete inputs -/

/-- A viper store holding nothing but the list `auth` under `server.auth`;
the stored value `"5"` converts to 5, a missing value to 0. -/
def exampleViper (auth : List String) : Viper :=
  { values := fun _ => none
    defaults := fun _ => none
    stringSlice := fun k => if k = "server.auth" then auth else []
    toInt := fun s => if s = "5" then 5 else 0 }

/-- A fresh process: nothing published, logged, created or closed yet. -/
def exampleWorld (auth : List String) : World :=
  { viper := exampleViper auth
    Instance := none
    log := []
    writerCalls := []
    consumers := []
    closeCalls := [] }

/-- Collaborators that all succeed: the n-th factory invocation returns writer
`n`, `range` visits the keys in the order the map holds them. -/
def exampleEnv : Env :=
  { hostname := .ok "host"
    initGlobalLogger := fun _ => none
    createResolver := fun _ => (some ⟨1⟩, none)
    uuid := "generated"
    newWriter := fun hist _ => .ok ⟨hist.length⟩
    range := ⟨id, fun _ => List.Perm.refl _⟩
    closeResult := fun _ _ => none }

/-- As `exampleEnv`, but the second invocation of the writer factory fails. -/
def failingWriterEnv : Env :=
  { exampleEnv with
    newWriter := fun hist _ => if hist.length = 1 then .error "disk full" else .ok ⟨hist.length⟩ }

/-- As `exampleEnv`, but the geo factory returns a resolver together with an error. -/
def geoErrorEnv : Env :=
  { exampleEnv with createResolver := fun _ => (some ⟨7⟩, some "no database") }

/-- As `exampleEnv`, but the geo factory returns nil together with an error. -/
def geoNilEnv : Env :=
  { exampleEnv with createResolver := fun _ => (none, some "no database") }

/-- As `exampleEnv`, but closing the closer `other 1` fails. -/
def failingCloseEnv : Env :=
  { exampleEnv with
    closeResult := fun _ cl => if cl = Closer.other 1 then some "close failed" else none }

/-- The set S of the authorization claims, following the spec's words ("trim
whitespace from each entry; drop empty entries"): the trimmed entries that are
non-empty after trimming. -/
def trimmedNonEmpty (rawList : List String) : List String :=
  (rawList.map TrimSpace).filter (fun t => t != "")

/-! ## Lemmas on Go maps -/

theorem GoMap.keys_nodup {V : Type} (m : GoMap V) : m.keys.Nodup := m.nodup

theorem GoMap.len_eq {V : Type} (m : GoMap V) : m.len = m.keys.length := by
  simp [GoMap.len, GoMap.keys, entryKeys]

theorem entryKeys_filter {V : Type} (k : String) (l : List (String × V)) :
    entryKeys (l.filter (fun e => e.1 != k)) = (entryKeys l).filter (fun x => x != k) := by
  induction l with
  | nil => rfl
  | cons e l ih =>
    by_cases h : e.1 = k <;> simp_all [entryKeys, List.filter_cons]

theorem GoMap.keys_set {V : Type} (m : GoMap V) (k : String) (v : V) :
    (m.set k v).keys = m.keys.filter (fun x => x != k) ++ [k] := by
  simp only [GoMap.keys, GoMap.set]
  rw [← entryKeys_filter]
  simp [entryKeys]

theorem GoMap.mem_keys_set {V : Type} (m : GoMap V) (k : String) (v : V) (x : String) :
    x ∈ (m.set k v).keys ↔ x = k ∨ x ∈ m.keys := by
  rw [GoMap.keys_set]
  by_cases h : x = k <;> simp [h]

theorem filter_ne_of_not_mem {V : Type} (k : String) (l : List (String × V))
    (h : k ∉ entryKeys l) : l.filter (fun e => e.1 != k) = l := by
  rw [List.filter_eq_self]
  intro e he
  have : e.1 ≠ k := fun hk => h (hk ▸ List.mem_map_of_mem Prod.fst he)
  simpa using this

theorem GoMap.values_set_of_not_mem {V : Type} (m : GoMap V) (k : String) (v : V)
    (h : k ∉ m.keys) : (m.set k v).values = m.values ++ [v] := by
  simp only [GoMap.values, GoMap.set]
  rw [filter_ne_of_not_mem k m.entries h]
  simp

theorem find?_filter_ne {V : Type} (k x : String) (v : V) (hx : x ≠ k)
    (l : List (String × V)) :
    (l.filter (fun e => e.1 != k) ++ [(k, v)]).find? (fun e => e.1 == x)
      = l.find? (fun e => e.1 == x) := by
  have hkx : (k == x) = false := by simpa using Ne.symm hx
  induction l with
  | nil => simp [List.find?, hkx]
  | cons e l ih =>
    by_cases h : e.1 = k
    · have hex : (e.1 == x) = false := by
        simpa using fun h' : e.1 = x => hx (h'.symm.trans h)
      have hf : (e.1 != k) = false := by simp [h]
      rw [List.filter_cons, hf, List.find?_cons, hex]
      simpa using ih
    · have hf : (e.1 != k) = true := by simp [h]
      rw [List.filter_cons, hf]
      simp only [if_true, List.cons_append, List.find?_cons]
      cases hex : (e.1 == x) with
      | true => rfl
      | false => exact ih

theorem find?_filter_self {V : Type} (k : String) (v : V) (l : List (String × V)) :
    (l.filter (fun e => e.1 != k) ++ [(k, v)]).find? (fun e => e.1 == k) = some (k, v) := by
  induction l with
  | nil => simp [List.find?]
  | cons e l ih =>
    by_cases h : e.1 = k
    · have hf : (e.1 != k) = false := by simp [h]
      rw [List.filter_cons, hf]
      exact ih
    · have hf : (e.1 != k) = true := by simp [h]
      have hek : (e.1 == k) = false := by simpa using h
      rw [List.filter_cons, hf]
      simp only [if_true, List.cons_append, List.find?_cons, hek]
      exact ih

theorem GoMap.get?_set {V : Type} (m : GoMap V) (k : String) (v : V) (x : String) :
    (m.set k v).get? x = if x = k then some v else m.get? x := by
  by_cases h : x = k
  · subst h
    simp [GoMap.get?, GoMap.set, find?_filter_self]
  · simp only [GoMap.get?, GoMap.set, if_neg h]
    rw [find?_filter_ne k x v h]

theorem find?_key_none {V : Type} (x : String) (l : List (String × V)) :
    l.find? (fun e => e.1 == x) = none ↔ x ∉ entryKeys l := by
  simp only [List.find?_eq_none, entryKeys, List.mem_map, not_exists, not_and]
  constructor
  · intro h e he hx
    have := h e he
    simp [hx] at this
  · intro h e he
    have := h e he
    simpa using this

theorem GoMap.get?_eq_none {V : Type} (m : GoMap V) (x : String) :
    m.get? x = none ↔ x ∉ m.keys := by
  unfold GoMap.get? GoMap.keys
  rw [Option.map_eq_none', find?_key_none]

/-! ## Lemmas on the authorization table -/

theorem GoMap.allTrue_empty : (GoMap.empty : GoMap Bool).AllTrue := by
  intro e he
  simp [GoMap.empty] at he

theorem GoMap.allTrue_set (m : GoMap Bool) (k : String) (h : m.AllTrue) :
    (m.set k true).AllTrue := by
  intro e he
  simp only [GoMap.set, List.mem_append, List.mem_filter, List.mem_singleton] at he
  rcases he with he | he
  · exact h e he.1
  · rw [he]

theorem entries_of_allTrue (l : List (String × Bool)) (h : ∀ e ∈ l, e.2 = true) :
    l = (entryKeys l).map (fun k => (k, true)) := by
  induction l with
  | nil => rfl
  | cons e l ih =>
    have he : e.2 = true := h e (List.mem_cons_self _ _)
    have hl : ∀ e ∈ l, e.2 = true := fun x hx => h x (List.mem_cons_of_mem _ hx)
    have := ih hl
    simp only [entryKeys, List.map_cons, List.map_map] at this ⊢
    rw [← this]
    congr 1
    exact Prod.ext rfl he

theorem GoMap.get?_of_allTrue (m : GoMap Bool) (h : m.AllTrue) (x : String) :
    m.get? x = if x ∈ m.keys then some true else none := by
  by_cases hx : x ∈ m.keys
  · rw [if_pos hx]
    cases hg : m.get? x with
    | none => exact absurd hx ((GoMap.get?_eq_none m x).1 hg)
    | some v =>
      unfold GoMap.get? at hg
      rw [Option.map_eq_some'] at hg
      obtain ⟨e, he, hv⟩ := hg
      have := h e (List.mem_of_find?_eq_some he)
      rw [← hv, this]
  · rw [if_neg hx]
    exact (GoMap.get?_eq_none m x).2 hx

theorem collectTokens_mem (l : List String) (m : GoMap Bool) (x : String) :
    x ∈ (Init.collectTokens l m).keys ↔
      x ∈ m.keys ∨ ∃ t ∈ l, t ≠ "" ∧ TrimSpace t = x := by
  induction l generalizing m with
  | nil => simp [Init.collectTokens]
  | cons t rest ih =>
    by_cases ht : t = ""
    · simp [Init.collectTokens, ht, ih]
    · simp only [Init.collectTokens, bne_iff_ne, ne_eq, ht, not_false_eq_true, if_true, ih,
        GoMap.mem_keys_set, List.mem_cons, exists_eq_or_imp, true_and]
      constructor
      · rintro ((h | h) | h)
        · exact Or.inr (Or.inl h.symm)
        · exact Or.inl h
        · exact Or.inr (Or.inr h)
      · rintro (h | h | h)
        · exact Or.inl (Or.inr h)
        · exact Or.inl (Or.inl h.symm)
        · exact Or.inr h

theorem collectTokens_allTrue (l : List String) (m : GoMap Bool) (h : m.AllTrue) :
    (Init.collectTokens l m).AllTrue := by
  induction l generalizing m with
  | nil => simpa [Init.collectTokens] using h
  | cons t rest ih =>
    by_cases ht : t = ""
    · simpa [Init.collectTokens, ht] using ih m h
    · simpa [Init.collectTokens, ht] using ih _ (GoMap.allTrue_set m _ h)

theorem authorizedTokens_allTrue (raw : List String) (gen : String) :
    (Init.authorizedTokens raw gen).1.AllTrue := by
  have h := collectTokens_allTrue raw GoMap.empty GoMap.allTrue_empty
  unfold Init.authorizedTokens
  by_cases h0 : (Init.collectTokens raw GoMap.empty).len = 0
  · simpa [h0] using GoMap.allTrue_set _ gen h
  · simpa [h0] using h

theorem len_eq_zero_iff {V : Type} (m : GoMap V) : m.len = 0 ↔ ∀ x, x ∉ m.keys := by
  rw [GoMap.len_eq, List.length_eq_zero, List.eq_nil_iff_forall_not_mem]

theorem authorizedTokens_mem (raw : List String) (gen : String) (x : String) :
    x ∈ (Init.authorizedTokens raw gen).1.keys ↔
      if (∃ t ∈ raw, t ≠ "") then (∃ t ∈ raw, t ≠ "" ∧ TrimSpace t = x) else x = gen := by
  have hmem := collectTokens_mem raw GoMap.empty
  have hempty : ∀ y, y ∉ (GoMap.empty : GoMap Bool).keys := by
    intro y; simp [GoMap.empty, GoMap.keys, entryKeys]
  unfold Init.authorizedTokens
  by_cases hex : ∃ t ∈ raw, t ≠ ""
  · have h0 : (Init.collectTokens raw GoMap.empty).len ≠ 0 := by
      rw [Ne, len_eq_zero_iff]
      intro hall
      obtain ⟨t, ht, hne⟩ := hex
      exact hall (TrimSpace t) ((hmem _).2 (Or.inr ⟨t, ht, hne, rfl⟩))
    simp only [beq_iff_eq, h0, if_false, if_pos hex, hmem, hempty, false_or]
  · have h0 : (Init.collectTokens raw GoMap.empty).len = 0 := by
      rw [len_eq_zero_iff]
      intro y hy
      rcases (hmem y).1 hy with h | ⟨t, ht, hne, _⟩
      · exact hempty y h
      · exact hex ⟨t, ht, hne⟩
    simp only [beq_iff_eq, h0, if_true, if_neg hex, GoMap.mem_keys_set]
    constructor
    · rintro (h | h)
      · exact h
      · exact absurd h ((len_eq_zero_iff _).1 h0 x)
    · exact Or.inl

theorem trimSpace_empty : TrimSpace "" = "" := by decide

/-- The table agrees with the set of trimmed, non-empty entries on every raw
list without an entry that is non-empty but blank. -/
theorem authorizedTokens_mem_trimmed (raw : List String) (gen : String)
    (hne : trimmedNonEmpty raw ≠ [])
    (hblank : ∀ t ∈ raw, t ≠ "" → TrimSpace t ≠ "") (x : String) :
    x ∈ (Init.authorizedTokens raw gen).1.keys ↔ x ∈ trimmedNonEmpty raw := by
  have hS : ∀ y, y ∈ trimmedNonEmpty raw ↔ ∃ t ∈ raw, TrimSpace t = y ∧ y ≠ "" := by
    intro y
    simp only [trimmedNonEmpty, List.mem_filter, List.mem_map, bne_iff_ne, ne_eq]
    constructor
    · rintro ⟨⟨t, ht, hty⟩, hy⟩
      exact ⟨t, ht, hty, hy⟩
    · rintro ⟨t, ht, hty, hy⟩
      exact ⟨⟨t, ht, hty⟩, hy⟩
  obtain ⟨y, hy⟩ := List.exists_mem_of_ne_nil _ hne
  obtain ⟨t₀, ht₀, hty, hyne⟩ := (hS y).1 hy
  have hex : ∃ t ∈ raw, t ≠ "" := by
    refine ⟨t₀, ht₀, fun h0 => hyne ?_⟩
    rw [← hty, h0, trimSpace_empty]
  rw [authorizedTokens_mem, if_pos hex, hS]
  constructor
  · rintro ⟨t, ht, hne', hx⟩
    exact ⟨t, ht, hx, hx ▸ hblank t ht hne'⟩
  · rintro ⟨t, ht, hx, hxne⟩
    refine ⟨t, ht, fun h0 => hxne ?_, hx⟩
    rw [← hx, h0, trimSpace_empty]

/-- The scenario of the spec: `["t1", " t2 ", "t1"]` yields the two tokens `t1` and `t2`. -/
theorem authorizedTokens_scenario :
    (Init.authorizedTokens ["t1", " t2 ", "t1"] "generated").1.keys = ["t2", "t1"] ∧
      (Init.authorizedTokens ["t1", " t2 ", "t1"] "generated").2 = [] := by
  decide

/-! ## Theorems on the authorization table -/

/-- C6: for every raw `server.auth` list and every generated token value, the
`AuthorizedTokens` table built by `Init` holds at least one token. The block
is a total function returning a table: it has no failure path. -/
theorem authorizedTokens_nonempty (tokensArr : List String) (generatedToken : String) :
    0 < (Init.authorizedTokens tokensArr generatedToken).1.len ∧
      ∃ t, (Init.authorizedTokens tokensArr generatedToken).1.get? t = some true := by
  have hlen : 0 < (Init.authorizedTokens tokensArr generatedToken).1.len := by
    unfold Init.authorizedTokens
    by_cases h0 : (Init.collectTokens tokensArr GoMap.empty).len = 0
    · rw [if_pos (by simpa using h0)]
      simp [GoMap.len, GoMap.set]
    · rw [if_neg (by simpa using h0)]
      exact Nat.pos_of_ne_zero h0
  refine ⟨hlen, ?_⟩
  rw [GoMap.len_eq] at hlen
  obtain ⟨t, ht⟩ := List.exists_mem_of_length_pos hlen
  exact ⟨t, by rw [GoMap.get?_of_allTrue _ (authorizedTokens_allTrue _ _), if_pos ht]⟩

/-- C10: for a fixed generated token, two raw `server.auth` lists with the same
set of elements (any order, any number of repetitions) yield the same
`AuthorizedTokens` table: the same entries up to the order in which the map
holds them, hence the same result for every lookup. No error is produced. -/
theorem authorizedTokens_of_same_elements (raw₁ raw₂ : List String) (generatedToken : String)
    (h : ∀ t, t ∈ raw₁ ↔ t ∈ raw₂) :
    (Init.authorizedTokens raw₁ generatedToken).1.entries.Perm
        (Init.authorizedTokens raw₂ generatedToken).1.entries ∧
      (Init.authorizedTokens raw₁ generatedToken).1.len =
        (Init.authorizedTokens raw₂ generatedToken).1.len ∧
      ∀ k, (Init.authorizedTokens raw₁ generatedToken).1.get? k =
        (Init.authorizedTokens raw₂ generatedToken).1.get? k := by
  have hkeys : ∀ x, x ∈ (Init.authorizedTokens raw₁ generatedToken).1.keys ↔
      x ∈ (Init.authorizedTokens raw₂ generatedToken).1.keys := by
    intro x
    rw [authorizedTokens_mem, authorizedTokens_mem]
    simp only [h]
  have hperm : (Init.authorizedTokens raw₁ generatedToken).1.keys.Perm
      (Init.authorizedTokens raw₂ generatedToken).1.keys :=
    (List.perm_ext_iff_of_nodup (GoMap.keys_nodup _) (GoMap.keys_nodup _)).2 hkeys
  refine ⟨?_, ?_, ?_⟩
  · rw [entries_of_allTrue _ (authorizedTokens_allTrue raw₁ generatedToken),
      entries_of_allTrue _ (authorizedTokens_allTrue raw₂ generatedToken)]
    exact hperm.map _
  · rw [GoMap.len_eq, GoMap.len_eq]
    exact hperm.length_eq
  · intro k
    rw [GoMap.get?_of_allTrue _ (authorizedTokens_allTrue _ _),
      GoMap.get?_of_allTrue _ (authorizedTokens_allTrue _ _)]
    simp only [hkeys]

/-- Witness of C10: `["a", "b", "a"]` and `["b", "a"]` have the same elements. -/
theorem authorizedTokens_of_same_elements_witness :
    (∀ t, t ∈ ["a", "b", "a"] ↔ t ∈ ["b", "a"]) ∧
      (Init.authorizedTokens ["a", "b", "a"] "g").1.entries.Perm
        (Init.authorizedTokens ["b", "a"] "g").1.entries :=
  ⟨by intro t; simp; tauto,
    (authorizedTokens_of_same_elements ["a", "b", "a"] ["b", "a"] "g"
      (by intro t; simp; tauto)).1⟩

/-- C1 (failing input): for the raw list `["t1", " "]` the set S of trimmed,
non-empty entries is `{"t1"}`, but the table built by `Init` has two keys,
`"t1"` and the empty string: the entry `" "` passes the test `token != ""`
and is stored under its trimmed form `""`. -/
theorem authorizedTokens_whitespace_entry :
    trimmedNonEmpty ["t1", " "] = ["t1"] ∧
      (Init.authorizedTokens ["t1", " "] "generated").1.keys = ["t1", ""] ∧
      (Init.authorizedTokens ["t1", " "] "generated").1.get? "" = some true ∧
      (Init.authorizedTokens ["t1", " "] "generated").1.len = 2 := by
  decide

/-- C3 (failing input): for the raw list `[" "]`, whose only entry is white
space, the table built by `Init` is not the table of the empty list: it holds
the empty string as its only token, and no token is generated or logged; the
empty list yields the singleton of the generated token. -/
theorem authorizedTokens_only_whitespace :
    (Init.authorizedTokens [" "] "generated").1.keys = [""] ∧
      (Init.authorizedTokens [" "] "generated").1.get? "generated" = none ∧
      (Init.authorizedTokens [" "] "generated").2 = [] ∧
      (Init.authorizedTokens [] "generated").1.keys = ["generated"] := by
  decide

/-! ## Lemmas on the provisioning loop -/

theorem provision_run (env : Env) (serverName : String) (order : List String)
    (writers : GoMap Writer) (w : World) :
    ∃ calls,
      (Init.provision env serverName order writers w).2
          = { w with writerCalls := w.writerCalls ++ calls } ∧
        Run env serverName w.viper (w.writerCalls.map Prod.fst) order writers calls
          (Init.provision env serverName order writers w).1 := by
  induction order generalizing writers w with
  | nil => exact ⟨[], by simp [Init.provision], Run.done _ _⟩
  | cons token rest ih =>
    cases hres : env.newWriter (w.writerCalls.map Prod.fst)
        (Init.writerConfig serverName w.viper token) with
    | error err =>
      refine ⟨[(Init.writerConfig serverName w.viper token, .error err)], ?_, ?_⟩
      · simp [Init.provision, hres]
      · simp only [Init.provision, hres]
        exact Run.fail _ _ _ _ _ hres
    | ok wr =>
      obtain ⟨calls, hw, hrun⟩ := ih (writers.set token wr)
        { w with writerCalls := w.writerCalls ++
            [(Init.writerConfig serverName w.viper token, .ok wr)] }
      refine ⟨(Init.writerConfig serverName w.viper token, .ok wr) :: calls, ?_, ?_⟩
      · simp only [Init.provision, hres]
        rw [hw]
        simp
      · simp only [Init.provision, hres]
        refine Run.step _ _ _ _ _ _ _ hres ?_
        simpa using hrun

theorem Run.error_shape {env : Env} {sn : String} {v : Viper} {hist : List LoggingConfig}
    {order : List String} {writers : GoMap Writer}
    {calls : List (LoggingConfig × Except Error Writer)} {r : Except Error (GoMap Writer)}
    (h : Run env sn v hist order writers calls r) (e : Error) (hr : r = .error e) :
    ∃ pre c, calls = pre ++ [(c, .error e)] ∧ (∀ x ∈ pre, ∃ wr, x.2 = .ok wr) ∧
      pre.length < order.length := by
  induction h with
  | done hist writers => cases hr
  | fail hist token rest writers err h =>
    cases hr
    exact ⟨[], _, rfl, by simp, by simp⟩
  | step hist token rest writers wr calls r h hrest ih =>
    obtain ⟨pre, c, hc, hpre, hlen⟩ := ih hr
    refine ⟨(Init.writerConfig sn v token, .ok wr) :: pre, c, by simp [hc], ?_, by simpa using hlen⟩
    intro x hx
    rcases List.mem_cons.1 hx with hx | hx
    · exact ⟨wr, by rw [hx]⟩
    · exact hpre x hx

theorem Run.ok_shape {env : Env} {sn : String} {v : Viper} {hist : List LoggingConfig}
    {order : List String} {writers : GoMap Writer}
    {calls : List (LoggingConfig × Except Error Writer)} {r : Except Error (GoMap Writer)}
    (h : Run env sn v hist order writers calls r) (ws : GoMap Writer) (hr : r = .ok ws) :
    calls.map Prod.fst = order.map (Init.writerConfig sn v) ∧
      (∀ x ∈ calls, ∃ wr, x.2 = .ok wr) := by
  induction h with
  | done hist writers => simp
  | fail hist token rest writers err h => cases hr
  | step hist token rest writers wr calls r h hrest ih =>
    obtain ⟨hm, hall⟩ := ih hr
    refine ⟨by simp [hm], ?_⟩
    intro x hx
    rcases List.mem_cons.1 hx with hx | hx
    · exact ⟨wr, by rw [hx]⟩
    · exact hall x hx

theorem Run.faithful {env : Env} {sn : String} {v : Viper} {hist : List LoggingConfig}
    {order : List String} {writers : GoMap Writer}
    {calls : List (LoggingConfig × Except Error Writer)} {r : Except Error (GoMap Writer)}
    (h : Run env sn v hist order writers calls r) :
    ∀ pre x post, calls = pre ++ x :: post →
      x.2 = env.newWriter (hist ++ pre.map Prod.fst) x.1 := by
  induction h with
  | done hist writers =>
    intro pre x post hc
    simp at hc
  | fail hist token rest writers err h =>
    intro pre x post hc
    cases pre with
    | nil =>
      simp at hc
      rw [← hc.1]
      simpa using h.symm
    | cons p pre => simp at hc
  | step hist token rest writers wr calls r h hrest ih =>
    intro pre x post hc
    cases pre with
    | nil =>
      simp at hc
      rw [← hc.1]
      simpa using h.symm
    | cons p pre =>
      simp only [List.cons_append, List.cons.injEq] at hc
      have := ih pre x post hc.2
      rw [this, ← hc.1]
      simp

theorem Run.keys {env : Env} {sn : String} {v : Viper} {hist : List LoggingConfig}
    {order : List String} {writers : GoMap Writer}
    {calls : List (LoggingConfig × Except Error Writer)} {r : Except Error (GoMap Writer)}
    (h : Run env sn v hist order writers calls r) (ws : GoMap Writer) (hr : r = .ok ws) :
    ∀ x, x ∈ ws.keys ↔ x ∈ writers.keys ∨ x ∈ order := by
  induction h with
  | done hist writers =>
    cases hr
    simp
  | fail hist token rest writers err h => cases hr
  | step hist token rest writers wr calls r h hrest ih =>
    intro x
    rw [ih hr x, GoMap.mem_keys_set, List.mem_cons]
    tauto

theorem Run.get?_other {env : Env} {sn : String} {v : Viper} {hist : List LoggingConfig}
    {order : List String} {writers : GoMap Writer}
    {calls : List (LoggingConfig × Except Error Writer)} {r : Except Error (GoMap Writer)}
    (h : Run env sn v hist order writers calls r) (ws : GoMap Writer) (hr : r = .ok ws) :
    ∀ t, t ∉ order → ws.get? t = writers.get? t := by
  induction h with
  | done hist writers =>
    cases hr
    simp
  | fail hist token rest writers err h => cases hr
  | step hist token rest writers wr calls r h hrest ih =>
    intro t ht
    rw [List.mem_cons, not_or] at ht
    rw [ih hr t ht.2, GoMap.get?_set, if_neg ht.1]

theorem Run.get?_token {env : Env} {sn : String} {v : Viper} {hist : List LoggingConfig}
    {order : List String} {writers : GoMap Writer}
    {calls : List (LoggingConfig × Except Error Writer)} {r : Except Error (GoMap Writer)}
    (h : Run env sn v hist order writers calls r) (ws : GoMap Writer) (hr : r = .ok ws)
    (hnd : order.Nodup) :
    ∀ t ∈ order, ∃ wr, (Init.writerConfig sn v t, Except.ok wr) ∈ calls ∧
      ws.get? t = some wr := by
  induction h with
  | done hist writers => simp
  | fail hist token rest writers err h => cases hr
  | step hist token rest writers wr calls r h hrest ih =>
    intro t ht
    rw [List.nodup_cons] at hnd
    rcases List.mem_cons.1 ht with ht | ht
    · subst ht
      refine ⟨wr, List.mem_cons_self _ _, ?_⟩
      rw [Run.get?_other hrest ws hr t hnd.1, GoMap.get?_set, if_pos rfl]
    · obtain ⟨wr', hmem, hget⟩ := ih hr hnd.2 t ht
      exact ⟨wr', List.mem_cons_of_mem _ hmem, hget⟩

theorem Run.values {env : Env} {sn : String} {v : Viper} {hist : List LoggingConfig}
    {order : List String} {writers : GoMap Writer}
    {calls : List (LoggingConfig × Except Error Writer)} {r : Except Error (GoMap Writer)}
    (h : Run env sn v hist order writers calls r) (ws : GoMap Writer) (hr : r = .ok ws)
    (hnd : order.Nodup) (hdisj : ∀ t ∈ order, t ∉ writers.keys) :
    ws.values = writers.values ++ okWriters calls := by
  induction h with
  | done hist writers =>
    cases hr
    simp [okWriters]
  | fail hist token rest writers err h => cases hr
  | step hist token rest writers wr calls r h hrest ih =>
    rw [List.nodup_cons] at hnd
    have hd : ∀ t ∈ rest, t ∉ (writers.set token wr).keys := by
      intro t ht hmem
      rcases (GoMap.mem_keys_set _ _ _ _).1 hmem with h1 | h1
      · exact hnd.1 (h1 ▸ ht)
      · exact hdisj t (List.mem_cons_of_mem _ ht) h1
    rw [ih hr hnd.2 hd, GoMap.values_set_of_not_mem _ _ _ (hdisj token (List.mem_cons_self _ _))]
    simp [okWriters]

theorem Run.succeeds {env : Env} {sn : String} {v : Viper} {hist : List LoggingConfig}
    {order : List String} {writers : GoMap Writer}
    {calls : List (LoggingConfig × Except Error Writer)} {r : Except Error (GoMap Writer)}
    (h : Run env sn v hist order writers calls r)
    (hsucc : ∀ hist cfg, ∃ wr, env.newWriter hist cfg = .ok wr) :
    ∃ ws, r = .ok ws := by
  induction h with
  | done hist writers => exact ⟨writers, rfl⟩
  | fail hist token rest writers err h =>
    obtain ⟨wr, hwr⟩ := hsucc hist (Init.writerConfig sn v token)
    rw [h] at hwr
    cases hwr
  | step hist token rest writers wr calls r h hrest ih => exact ih

theorem mem_okWriters (calls : List (LoggingConfig × Except Error Writer)) (wr : Writer) :
    wr ∈ okWriters calls ↔ ∃ c, (c, Except.ok wr) ∈ calls := by
  simp only [okWriters, List.mem_filterMap]
  constructor
  · rintro ⟨⟨c, r⟩, hx, hr⟩
    cases r with
    | error e => simp at hr
    | ok wr' =>
      simp at hr
      exact ⟨c, hr ▸ hx⟩
  · rintro ⟨c, hc⟩
    exact ⟨(c, .ok wr), hc, rfl⟩

/-! ## Lemmas on `Init` -/

theorem Init_exits (env : Env) (w : World) (err : Error)
    (h : env.initGlobalLogger (Init.globalLoggerConfig env w) = some err) :
    (Init env w).1 = .exited err ∧ (Init env w).2.writerCalls = w.writerCalls ∧
      (Init env w).2.Instance = w.Instance ∧ (Init env w).2.consumers = w.consumers ∧
      (Init env w).2.closeCalls = w.closeCalls := by
  unfold Init.globalLoggerConfig Init.serverName at h
  unfold Init
  cases hh : env.hostname with
  | error e =>
    simp only [hh] at h
    simp [h, World.println]
  | ok name =>
    simp only [hh] at h
    simp [h, World.println]

/-- The shape of `Init` once the global logger is initialised: the loop runs
in a world `w₁` that differs from the entry world in the viper defaults and
the log only, and its result decides the outcome. -/
theorem Init_after_logger (env : Env) (w : World)
    (h : env.initGlobalLogger (Init.globalLoggerConfig env w) = none) :
    ∃ (w₁ : World) (authority : String),
      w₁.viper = setDefaultParams w.viper ∧ w₁.writerCalls = w.writerCalls ∧
      w₁.Instance = w.Instance ∧ w₁.consumers = w.consumers ∧
      w₁.closeCalls = w.closeCalls ∧
      (∀ e, (env.createResolver (Init.geoPath w)).2 = some e →
        ("Run without geo resolver " ++ e) ∈ w₁.log) ∧
      Init env w =
        match Init.provision env (Init.serverName env)
            (env.range.order (Init.table env w).keys) GoMap.empty w₁ with
        | (.error err, w₂) => (.returned (some err), w₂)
        | (.ok writers, w₂) =>
          (.returned none,
            { w₂ with
              consumers := w₂.consumers ++ [NewMultipleAsyncLogger writers]
              Instance := some
                { ServerName := Init.serverName env
                  Authority := authority
                  AuthorizedTokens := Init.table env w
                  EventsConsumer := some (NewMultipleAsyncLogger writers)
                  GeoResolver := (env.createResolver (Init.geoPath w)).1
                  closeMe := [Closer.consumer (NewMultipleAsyncLogger writers)] } }) := by
  unfold Init.globalLoggerConfig Init.serverName at h
  unfold Init Init.geoPath Init.table Init.serverName
  have hss : (setDefaultParams w.viper).GetStringSlice "server.auth"
      = w.viper.GetStringSlice "server.auth" := rfl
  rcases hat : Init.authorizedTokens (w.viper.GetStringSlice "server.auth") env.uuid
    with ⟨tbl, lines⟩
  rcases hcr : env.createResolver ((setDefaultParams w.viper).GetString "geo.maxmind_path")
    with ⟨geo, gerr⟩
  cases hh : env.hostname <;> simp only [hh] at h <;>
    by_cases hp : ((setDefaultParams w.viper).GetString "server.public_url" == "") = true <;>
    cases gerr <;>
    simp only [h, hp, hcr, hss, hat, World.println, if_true, if_false, Bool.false_eq_true,
      reduceIte] <;>
    refine ⟨_, _, ?_, ?_, ?_, ?_, ?_, ?_, rfl⟩ <;>
    first
      | rfl
      | (intro e he; cases he; done)
      | (intro e he; cases he; simp)

theorem Init_runs (env : Env) (w : World)
    (h : env.initGlobalLogger (Init.globalLoggerConfig env w) = none) :
    ∃ calls r,
      Run env (Init.serverName env) (setDefaultParams w.viper) (w.writerCalls.map Prod.fst)
        (env.range.order (Init.table env w).keys) GoMap.empty calls r ∧
      (Init env w).2.writerCalls = w.writerCalls ++ calls ∧
      (Init env w).2.closeCalls = w.closeCalls ∧
      (∀ e, (env.createResolver (Init.geoPath w)).2 = some e →
        ("Run without geo resolver " ++ e) ∈ (Init env w).2.log) ∧
      (∀ e, r = .error e →
        (Init env w).1 = .returned (some e) ∧ (Init env w).2.Instance = w.Instance ∧
          (Init env w).2.consumers = w.consumers) ∧
      (∀ ws, r = .ok ws →
        (Init env w).1 = .returned none ∧
          (Init env w).2.consumers = w.consumers ++ [NewMultipleAsyncLogger ws] ∧
          ∃ authority, (Init env w).2.Instance = some
            { ServerName := Init.serverName env
              Authority := authority
              AuthorizedTokens := Init.table env w
              EventsConsumer := some (NewMultipleAsyncLogger ws)
              GeoResolver := (env.createResolver (Init.geoPath w)).1
              closeMe := [Closer.consumer (NewMultipleAsyncLogger ws)] }) := by
  obtain ⟨w₁, authority, hv, hwc, hI, hc, hcl, hlog, heq⟩ := Init_after_logger env w h
  obtain ⟨calls, hw₂, hrun⟩ := provision_run env (Init.serverName env)
    (env.range.order (Init.table env w).keys) GoMap.empty w₁
  rw [hv, hwc] at hrun
  rcases hp : Init.provision env (Init.serverName env)
    (env.range.order (Init.table env w).keys) GoMap.empty w₁ with ⟨r, w₂⟩
  rw [hp] at heq hw₂ hrun
  simp only at hw₂ hrun
  refine ⟨calls, r, hrun, ?_, ?_, ?_, ?_, ?_⟩
  · cases r <;> simp [heq, hw₂, hwc]
  · cases r <;> simp [heq, hw₂, hcl]
  · intro e he
    cases r <;> simpa [heq, hw₂] using hlog e he
  · intro e he
    subst he
    simp [heq, hw₂, hI, hc]
  · intro ws hws
    subst hws
    simp [heq, hw₂, hc]

theorem order_nodup (env : Env) (m : GoMap Bool) : (env.range.order m.keys).Nodup :=
  (env.range.perm m.keys).nodup_iff.2 m.keys_nodup

theorem not_mem_keys_empty {V : Type} (x : String) : x ∉ (GoMap.empty : GoMap V).keys := by
  simp [GoMap.empty, GoMap.keys, entryKeys]

/-! ## Lemmas on the closing registry -/

theorem scheduleClosing_foldl (a : AppConfig) (rs : List Closer) :
    (rs.foldl AppConfig.ScheduleClosing a).closeMe = a.closeMe ++ rs := by
  induction rs generalizing a with
  | nil => simp
  | cons r rs ih => simp [ih, AppConfig.ScheduleClosing]

theorem Close_loop_calls (env : Env) (rs : List Closer) (w : World) :
    (AppConfig.Close.loop env rs w).closeCalls = w.closeCalls ++ rs ∧
      (AppConfig.Close.loop env rs w).Instance = w.Instance ∧
      (AppConfig.Close.loop env rs w).writerCalls = w.writerCalls ∧
      (AppConfig.Close.loop env rs w).consumers = w.consumers := by
  induction rs generalizing w with
  | nil => simp [AppConfig.Close.loop]
  | cons r rs ih =>
    cases hres : env.closeResult w.closeCalls r with
    | none =>
      simp only [AppConfig.Close.loop, hres]
      obtain ⟨h1, h2, h3, h4⟩ := ih { w with closeCalls := w.closeCalls ++ [r] }
      exact ⟨by simp [h1], h2, h3, h4⟩
    | some e =>
      simp only [AppConfig.Close.loop, hres]
      obtain ⟨h1, h2, h3, h4⟩ := ih ({ w with closeCalls := w.closeCalls ++ [r] }.println e)
      simp only [World.println] at h1 h2 h3 h4 ⊢
      exact ⟨by simp [h1], h2, h3, h4⟩

/-! ## Theorems on provisioning, publication and shutdown -/

/-- C4: for every sequence of closers `rs` registered through `ScheduleClosing`
(in that order, on a configuration with an empty registry) and whatever the
release operations return (`env.closeResult` is arbitrary), `Close` invokes
the release operation of every registered closer once, in registration order,
going on after every failure. `Close` returns the world only: no error reaches
its caller, and what `Init` published stays as it is. -/
theorem Close_releases_all_in_order (env : Env) (a : AppConfig) (rs : List Closer) (w : World)
    (h : a.closeMe = []) :
    ((rs.foldl AppConfig.ScheduleClosing a).Close env w).closeCalls = w.closeCalls ++ rs ∧
      (∀ r, (((rs.foldl AppConfig.ScheduleClosing a).Close env w).closeCalls.count r
        = w.closeCalls.count r + rs.count r)) ∧
      ((rs.foldl AppConfig.ScheduleClosing a).Close env w).Instance = w.Instance := by
  have hreg : (rs.foldl AppConfig.ScheduleClosing a).closeMe = rs := by
    rw [scheduleClosing_foldl, h, List.nil_append]
  obtain ⟨h1, h2, _, _⟩ := Close_loop_calls env rs w
  unfold AppConfig.Close
  rw [hreg]
  exact ⟨h1, fun r => by rw [h1, List.count_append], h2⟩

/-- Witness of C4: three closers, the second of which fails to close. -/
theorem Close_releases_all_in_order_witness :
    ({} : AppConfig).closeMe = [] ∧
      (([Closer.other 0, Closer.other 1, Closer.other 2].foldl AppConfig.ScheduleClosing
        {}).Close failingCloseEnv (exampleWorld [])).closeCalls
        = (exampleWorld []).closeCalls ++ [Closer.other 0, Closer.other 1, Closer.other 2] :=
  ⟨rfl, (Close_releases_all_in_order failingCloseEnv {}
    [Closer.other 0, Closer.other 1, Closer.other 2] (exampleWorld []) rfl).1⟩

/-- The provisioning loop alone, run over an arbitrary table from an arbitrary
world: with a factory that always succeeds it returns one writer per token. -/
theorem provision_all_succeed (env : Env) (serverName : String) (table : GoMap Bool)
    (w : World) (hsucc : ∀ hist cfg, ∃ wr, env.newWriter hist cfg = .ok wr) :
    ∃ writers calls,
      (Init.provision env serverName (env.range.order table.keys) GoMap.empty w).1
          = .ok writers ∧
      (Init.provision env serverName (env.range.order table.keys) GoMap.empty w).2.writerCalls
          = w.writerCalls ++ calls ∧
      (∀ t, t ∈ writers.keys ↔ t ∈ table.keys) ∧
      writers.len = table.len ∧
      (calls.map fun x => x.1.LoggerName).Perm (table.keys.map fun t => "event-" ++ t) ∧
      (∀ t ∈ table.keys, ∃ c wr, (c, Except.ok wr) ∈ calls ∧ c.LoggerName = "event-" ++ t ∧
        writers.get? t = some wr) ∧
      (∀ pre x post, calls = pre ++ x :: post →
        x.2 = env.newWriter ((w.writerCalls ++ pre).map Prod.fst) x.1) := by
  obtain ⟨calls, hw, hrun⟩ := provision_run env serverName (env.range.order table.keys)
    GoMap.empty w
  obtain ⟨ws, hws⟩ := hrun.succeeds hsucc
  have hperm := env.range.perm table.keys
  have hnd := order_nodup env table
  have hkeys : ∀ t, t ∈ ws.keys ↔ t ∈ table.keys := by
    intro t
    rw [hrun.keys ws hws t, hperm.mem_iff]
    simp [not_mem_keys_empty]
  refine ⟨ws, calls, hws, by rw [hw], hkeys, ?_, ?_, ?_, ?_⟩
  · rw [GoMap.len_eq, GoMap.len_eq]
    exact ((List.perm_ext_iff_of_nodup ws.keys_nodup table.keys_nodup).2 hkeys).length_eq
  · have hm := (hrun.ok_shape ws hws).1
    have : (calls.map fun x => x.1.LoggerName)
        = (env.range.order table.keys).map fun t => "event-" ++ t := by
      have h2 := congrArg (List.map LoggingConfig.LoggerName) hm
      simpa [List.map_map, Function.comp_def, Init.writerConfig] using h2
    rw [this]
    exact hperm.map _
  · intro t ht
    obtain ⟨wr, hmem, hget⟩ := hrun.get?_token ws hws hnd t (hperm.mem_iff.2 ht)
    exact ⟨_, wr, hmem, rfl, hget⟩
  · intro pre x post hc
    rw [hrun.faithful pre x post hc]
    simp

/-- C5: when the global logger is initialised and the writer factory succeeds
on every invocation, `Init` returns no error and publishes an `AppConfig`
whose consumer is built from the writers mapping `writers` of `Init`; the keys
of `writers` are exactly the tokens of the published `AuthorizedTokens`; the
factory invocations `Init` makes are one per token, with the resource name
`"event-" ++ t` for the token `t`, each returning what the factory answers at
that point; and the handle stored under `t` is the one the invocation for
`"event-" ++ t` returned. -/
theorem Init_one_writer_per_token (env : Env) (w : World)
    (hlog : env.initGlobalLogger (Init.globalLoggerConfig env w) = none)
    (hsucc : ∀ hist cfg, ∃ wr, env.newWriter hist cfg = .ok wr) :
    ∃ a writers calls,
      (Init env w).1 = .returned none ∧
      (Init env w).2.Instance = some a ∧
      a.AuthorizedTokens = Init.table env w ∧
      a.EventsConsumer = some (NewMultipleAsyncLogger writers) ∧
      (Init env w).2.consumers = w.consumers ++ [NewMultipleAsyncLogger writers] ∧
      (Init env w).2.writerCalls = w.writerCalls ++ calls ∧
      (∀ t, t ∈ writers.keys ↔ t ∈ a.AuthorizedTokens.keys) ∧
      writers.len = a.AuthorizedTokens.len ∧
      (calls.map fun x => x.1.LoggerName).Perm
        (a.AuthorizedTokens.keys.map fun t => "event-" ++ t) ∧
      (∀ t ∈ a.AuthorizedTokens.keys, ∃ c wr, (c, Except.ok wr) ∈ calls ∧
        c.LoggerName = "event-" ++ t ∧ writers.get? t = some wr) ∧
      (∀ pre x post, calls = pre ++ x :: post →
        x.2 = env.newWriter ((w.writerCalls ++ pre).map Prod.fst) x.1) := by
  obtain ⟨calls, r, hrun, hwc, _, _, _, hok⟩ := Init_runs env w hlog
  obtain ⟨ws, hws⟩ := hrun.succeeds hsucc
  obtain ⟨hret, hcons, authority, hI⟩ := hok ws hws
  have hperm := env.range.perm (Init.table env w).keys
  have hnd := order_nodup env (Init.table env w)
  have hkeys : ∀ t, t ∈ ws.keys ↔ t ∈ (Init.table env w).keys := by
    intro t
    rw [hrun.keys ws hws t, hperm.mem_iff]
    simp [not_mem_keys_empty]
  refine ⟨_, ws, calls, hret, hI, rfl, rfl, hcons, hwc, hkeys, ?_, ?_, ?_, ?_⟩
  · rw [GoMap.len_eq, GoMap.len_eq]
    exact ((List.perm_ext_iff_of_nodup ws.keys_nodup
      (Init.table env w).keys_nodup).2 hkeys).length_eq
  · have hm := (hrun.ok_shape ws hws).1
    have : (calls.map fun x => x.1.LoggerName)
        = (env.range.order (Init.table env w).keys).map fun t => "event-" ++ t := by
      have h2 := congrArg (List.map LoggingConfig.LoggerName) hm
      simpa [List.map_map, Function.comp_def, Init.writerConfig] using h2
    rw [this]
    exact hperm.map _
  · intro t ht
    obtain ⟨wr, hmem, hget⟩ := hrun.get?_token ws hws hnd t (hperm.mem_iff.2 ht)
    exact ⟨_, wr, hmem, rfl, hget⟩
  · intro pre x post hc
    rw [hrun.faithful pre x post hc]
    simp

/-- Witness of C5: `Init` with the tokens `a` and `b` and a factory that always succeeds. -/
theorem Init_one_writer_per_token_witness :
    exampleEnv.initGlobalLogger
        (Init.globalLoggerConfig exampleEnv (exampleWorld ["a", "b"])) = none ∧
      (∀ hist cfg, ∃ wr, exampleEnv.newWriter hist cfg = .ok wr) ∧
      ∃ a writers,
        (Init exampleEnv (exampleWorld ["a", "b"])).2.Instance = some a ∧
        a.EventsConsumer = some (NewMultipleAsyncLogger writers) ∧
        ∀ t, t ∈ writers.keys ↔ t ∈ a.AuthorizedTokens.keys := by
  refine ⟨rfl, fun hist _ => ⟨⟨hist.length⟩, rfl⟩, ?_⟩
  obtain ⟨a, writers, _, _, h1, _, h2, _, _, h3, _⟩ :=
    Init_one_writer_per_token exampleEnv (exampleWorld ["a", "b"]) rfl
      (fun hist _ => ⟨⟨hist.length⟩, rfl⟩)
  exact ⟨a, writers, h1, h2, h3⟩

/-- C7: if an invocation of the writer factory made by `Init` fails with `e`,
then `Init` returns exactly `e`; the failing invocation is the last one (all
earlier ones succeeded and no further token is tried, so there are at most as
many invocations as tokens); the package variable `Instance` is left as it
was and no consumer is created. -/
theorem Init_factory_error (env : Env) (w : World)
    (calls : List (LoggingConfig × Except Error Writer)) (c : LoggingConfig) (e : Error)
    (hcalls : (Init env w).2.writerCalls = w.writerCalls ++ calls)
    (hfail : (c, Except.error e) ∈ calls) :
    (Init env w).1 = .returned (some e) ∧
      (∃ pre, calls = pre ++ [(c, .error e)] ∧ ∀ x ∈ pre, ∃ wr, x.2 = .ok wr) ∧
      calls.length ≤ (Init.table env w).len ∧
      (Init env w).2.Instance = w.Instance ∧
      (Init env w).2.consumers = w.consumers := by
  cases hl : env.initGlobalLogger (Init.globalLoggerConfig env w) with
  | some err =>
    obtain ⟨_, hwc, _⟩ := Init_exits env w err hl
    rw [hwc] at hcalls
    have : calls = [] := by simpa using hcalls.symm
    rw [this] at hfail
    cases hfail
  | none =>
    obtain ⟨calls', r, hrun, hwc, _, _, herr, _⟩ := Init_runs env w hl
    have hc : calls = calls' := List.append_cancel_left (hcalls.symm.trans hwc)
    subst hc
    cases r with
    | ok ws =>
      obtain ⟨wr, hwr⟩ := (hrun.ok_shape ws rfl).2 _ hfail
      cases hwr
    | error e' =>
      obtain ⟨pre, c', hshape, hpre, hlen⟩ := hrun.error_shape e' rfl
      have hlast : ((c, Except.error e) : LoggingConfig × Except Error Writer)
          = (c', Except.error e') := by
        rw [hshape, List.mem_append, List.mem_singleton] at hfail
        rcases hfail with hf | hf
        · obtain ⟨wr, hwr⟩ := hpre _ hf
          cases hwr
        · exact hf
      cases hlast
      obtain ⟨h1, h2, h3⟩ := herr e rfl
      refine ⟨h1, ⟨pre, hshape, hpre⟩, ?_, h2, h3⟩
      rw [GoMap.len_eq, ← (env.range.perm (Init.table env w).keys).length_eq, hshape]
      simpa using hlen

/-- Witness of C7: two tokens, the factory fails on its second invocation. -/
theorem Init_factory_error_witness :
    (Init failingWriterEnv (exampleWorld ["a", "b"])).2.writerCalls
        = (exampleWorld ["a", "b"]).writerCalls ++
          [(Init.writerConfig "host" (setDefaultParams (exampleViper ["a", "b"])) "a",
              .ok ⟨0⟩),
            (Init.writerConfig "host" (setDefaultParams (exampleViper ["a", "b"])) "b",
              .error "disk full")] ∧
      (Init failingWriterEnv (exampleWorld ["a", "b"])).1 = .returned (some "disk full") ∧
      (Init failingWriterEnv (exampleWorld ["a", "b"])).2.Instance = none :=
  ⟨by decide,
    (Init_factory_error failingWriterEnv (exampleWorld ["a", "b"])
      [(Init.writerConfig "host" (setDefaultParams (exampleViper ["a", "b"])) "a", .ok ⟨0⟩),
        (Init.writerConfig "host" (setDefaultParams (exampleViper ["a", "b"])) "b",
          .error "disk full")]
      (Init.writerConfig "host" (setDefaultParams (exampleViper ["a", "b"])) "b") "disk full"
      (by decide) (by decide)).1,
    (Init_factory_error failingWriterEnv (exampleWorld ["a", "b"])
      [(Init.writerConfig "host" (setDefaultParams (exampleViper ["a", "b"])) "a", .ok ⟨0⟩),
        (Init.writerConfig "host" (setDefaultParams (exampleViper ["a", "b"])) "b",
          .error "disk full")]
      (Init.writerConfig "host" (setDefaultParams (exampleViper ["a", "b"])) "b") "disk full"
      (by decide) (by decide)).2.2.2.1⟩

/-- C2 (counterexample): with the tokens `a` and `b` and a factory that fails
on its second invocation, `Init` returns the error although the writer created
by the first invocation has not been closed: its release operation has been
invoked zero times, not once. -/
theorem Init_failure_leaves_writer_open :
    (Init failingWriterEnv (exampleWorld ["a", "b"])).1 = .returned (some "disk full") ∧
      (Init failingWriterEnv (exampleWorld ["a", "b"])).2.writerCalls.map Prod.snd
        = [.ok ⟨0⟩, .error "disk full"] ∧
      (Init failingWriterEnv (exampleWorld ["a", "b"])).2.closeCalls.count (Closer.writer ⟨0⟩)
        = 0 ∧
      ¬ ((Init failingWriterEnv (exampleWorld ["a", "b"])).2.closeCalls.count
        (Closer.writer ⟨0⟩) = 1) := by
  decide

/-- C2 (amended): if the factory invocations made by `Init` are `pre` followed
by an invocation failing with `e`, then every invocation of `pre` succeeded,
`Init` returns `e`, and `Init` has invoked no release operation at all: the
writers created by `pre` are left open. -/
theorem Init_failure_closes_nothing (env : Env) (w : World)
    (pre : List (LoggingConfig × Except Error Writer)) (c : LoggingConfig) (e : Error)
    (h : (Init env w).2.writerCalls = w.writerCalls ++ (pre ++ [(c, .error e)])) :
    (Init env w).1 = .returned (some e) ∧
      (∀ x ∈ pre, ∃ wr, x.2 = .ok wr ∧
        (Init env w).2.closeCalls.count (Closer.writer wr)
          = w.closeCalls.count (Closer.writer wr)) ∧
      (Init env w).2.closeCalls = w.closeCalls := by
  cases hl : env.initGlobalLogger (Init.globalLoggerConfig env w) with
  | some err =>
    obtain ⟨_, hwc, _⟩ := Init_exits env w err hl
    rw [hwc] at h
    have : pre ++ [(c, Except.error e)] = [] := by simpa using h.symm
    simp at this
  | none =>
    obtain ⟨calls', r, hrun, hwc, hcl, _, herr, _⟩ := Init_runs env w hl
    have hc : pre ++ [(c, Except.error e)] = calls' :=
      List.append_cancel_left (h.symm.trans hwc)
    subst hc
    cases r with
    | ok ws =>
      obtain ⟨wr, hwr⟩ := (hrun.ok_shape ws rfl).2 (c, .error e) (by simp)
      cases hwr
    | error e' =>
      obtain ⟨pre', c', hshape, hpre, _⟩ := hrun.error_shape e' rfl
      obtain ⟨hp, hlast⟩ := List.append_inj' hshape rfl
      simp only [List.cons.injEq, Prod.mk.injEq, Except.error.injEq, and_true] at hlast
      obtain ⟨_, he⟩ := hlast
      subst he hp
      refine ⟨(herr e rfl).1, ?_, hcl⟩
      intro x hx
      obtain ⟨wr, hwr⟩ := hpre x hx
      exact ⟨wr, hwr, by rw [hcl]⟩

/-- Witness of C2 (amended): two tokens, the factory fails on its second invocation. -/
theorem Init_failure_closes_nothing_witness :
    (Init failingWriterEnv (exampleWorld ["a", "b"])).2.writerCalls
        = (exampleWorld ["a", "b"]).writerCalls ++
          ([(Init.writerConfig "host" (setDefaultParams (exampleViper ["a", "b"])) "a",
              .ok ⟨0⟩)] ++
            [(Init.writerConfig "host" (setDefaultParams (exampleViper ["a", "b"])) "b",
              .error "disk full")]) ∧
      (Init failingWriterEnv (exampleWorld ["a", "b"])).2.closeCalls
        = (exampleWorld ["a", "b"]).closeCalls :=
  ⟨by decide,
    (Init_failure_closes_nothing failingWriterEnv (exampleWorld ["a", "b"])
      [(Init.writerConfig "host" (setDefaultParams (exampleViper ["a", "b"])) "a", .ok ⟨0⟩)]
      (Init.writerConfig "host" (setDefaultParams (exampleViper ["a", "b"])) "b") "disk full"
      (by decide)).2.2⟩

/-- C8 (counterexample): the geo factory returns the resolver `7` together
with an error and every writer invocation succeeds; `Init` returns no error,
but the `GeoResolver` field of the published `AppConfig` is the resolver `7`,
not nil. -/
theorem Init_geo_error_keeps_resolver :
    geoErrorEnv.createResolver (Init.geoPath (exampleWorld ["a"]))
        = (some ⟨7⟩, some "no database") ∧
      (Init geoErrorEnv (exampleWorld ["a"])).1 = .returned none ∧
      (Init geoErrorEnv (exampleWorld ["a"])).2.Instance.map AppConfig.GeoResolver
        = some (some ⟨7⟩) ∧
      ¬ ((Init geoErrorEnv (exampleWorld ["a"])).2.Instance.map AppConfig.GeoResolver
        = some none) := by
  decide

/-- C8 (amended): whenever the geo-resolver factory returns an error `e`
together with the value `r` (the global logger being initialised and every
writer factory invocation succeeding), `Init` returns no error, logs the
error, and the `GeoResolver` field of the published `AppConfig` is `r`, the
value the factory returned alongside its error: nil exactly when the factory
returned nil. -/
theorem Init_geo_error (env : Env) (w : World) (r : Option Resolver) (e : Error)
    (hlog : env.initGlobalLogger (Init.globalLoggerConfig env w) = none)
    (hsucc : ∀ hist cfg, ∃ wr, env.newWriter hist cfg = .ok wr)
    (hgeo : env.createResolver (Init.geoPath w) = (r, some e)) :
    (Init env w).1 = .returned none ∧
      (∃ a, (Init env w).2.Instance = some a ∧ a.GeoResolver = r) ∧
      ("Run without geo resolver " ++ e) ∈ (Init env w).2.log := by
  obtain ⟨calls, res, hrun, _, _, hgl, _, hok⟩ := Init_runs env w hlog
  obtain ⟨ws, hws⟩ := hrun.succeeds hsucc
  obtain ⟨h1, _, authority, h3⟩ := hok ws hws
  refine ⟨h1, ⟨_, h3, ?_⟩, hgl e (by rw [hgeo])⟩
  simp [hgeo]

/-- Witness of C8 (amended): the geo factory returns nil together with an error. -/
theorem Init_geo_error_witness :
    geoNilEnv.initGlobalLogger (Init.globalLoggerConfig geoNilEnv (exampleWorld ["a"])) = none ∧
      (∀ hist cfg, ∃ wr, geoNilEnv.newWriter hist cfg = .ok wr) ∧
      geoNilEnv.createResolver (Init.geoPath (exampleWorld ["a"]))
        = (none, some "no database") ∧
      (Init geoNilEnv (exampleWorld ["a"])).1 = .returned none ∧
      ∃ a, (Init geoNilEnv (exampleWorld ["a"])).2.Instance = some a ∧ a.GeoResolver = none :=
  ⟨rfl, fun hist _ => ⟨⟨hist.length⟩, rfl⟩, rfl,
    (Init_geo_error geoNilEnv (exampleWorld ["a"]) none "no database" rfl
      (fun hist _ => ⟨⟨hist.length⟩, rfl⟩) rfl).1,
    (Init_geo_error geoNilEnv (exampleWorld ["a"]) none "no database" rfl
      (fun hist _ => ⟨⟨hist.length⟩, rfl⟩) rfl).2.1⟩

/-- C9: whenever `Init` returns successfully, the published `Instance` holds
in `EventsConsumer` the multiplexed consumer built from the writers mapping,
which has a writer for every authorized token, and its closing registry
`closeMe` is exactly the one-element list holding that consumer. Every writer
the factory returned during `Init` is among the handles the consumer's
release operation closes, and `Close` on the `Instance` invokes that release
operation (and nothing else), whatever the closers return. -/
theorem Init_success_registers_consumer (env : Env) (w : World)
    (h : (Init env w).1 = .returned none) :
    ∃ a writers calls,
      (Init env w).2.Instance = some a ∧
      a.EventsConsumer = some (NewMultipleAsyncLogger writers) ∧
      a.closeMe = [Closer.consumer (NewMultipleAsyncLogger writers)] ∧
      (∀ t, t ∈ writers.keys ↔ t ∈ a.AuthorizedTokens.keys) ∧
      (Init env w).2.writerCalls = w.writerCalls ++ calls ∧
      (∀ x ∈ calls, ∃ wr, x.2 = .ok wr ∧ wr ∈ (NewMultipleAsyncLogger writers).released) ∧
      (∀ wr ∈ (NewMultipleAsyncLogger writers).released, ∃ c, (c, Except.ok wr) ∈ calls) ∧
      ∀ (env' : Env) (w' : World),
        (a.Close env' w').closeCalls
          = w'.closeCalls ++ [Closer.consumer (NewMultipleAsyncLogger writers)] := by
  cases hl : env.initGlobalLogger (Init.globalLoggerConfig env w) with
  | some err =>
    rw [(Init_exits env w err hl).1] at h
    cases h
  | none =>
    obtain ⟨calls, r, hrun, hwc, _, _, herr, hok⟩ := Init_runs env w hl
    cases r with
    | error e =>
      rw [(herr e rfl).1] at h
      cases h
    | ok ws =>
      obtain ⟨_, _, authority, hI⟩ := hok ws rfl
      have hperm := env.range.perm (Init.table env w).keys
      have hvals : ws.values = okWriters calls := by
        rw [hrun.values ws rfl (order_nodup env _) (fun t _ => not_mem_keys_empty t)]
        simp [GoMap.values, GoMap.empty]
      refine ⟨_, ws, calls, hI, rfl, rfl, ?_, hwc, ?_, ?_, ?_⟩
      · intro t
        rw [hrun.keys ws rfl t, hperm.mem_iff]
        simp [not_mem_keys_empty]
      · intro x hx
        obtain ⟨wr, hwr⟩ := (hrun.ok_shape ws rfl).2 x hx
        refine ⟨wr, hwr, ?_⟩
        simp only [Consumer.released, NewMultipleAsyncLogger, hvals]
        exact (mem_okWriters calls wr).2 ⟨x.1, by rw [← hwr]; exact hx⟩
      · intro wr hwr
        simp only [Consumer.released, NewMultipleAsyncLogger, hvals] at hwr
        exact (mem_okWriters calls wr).1 hwr
      · intro env' w'
        exact (Close_loop_calls env' _ w').1

/-- Witness of C9: a successful `Init` with the tokens `a` and `b`. -/
theorem Init_success_registers_consumer_witness :
    (Init exampleEnv (exampleWorld ["a", "b"])).1 = .returned none ∧
      ∃ a writers,
        (Init exampleEnv (exampleWorld ["a", "b"])).2.Instance = some a ∧
        a.closeMe = [Closer.consumer (NewMultipleAsyncLogger writers)] := by
  refine ⟨by decide, ?_⟩
  obtain ⟨a, writers, _, h1, _, h3, _⟩ :=
    Init_success_registers_consumer exampleEnv (exampleWorld ["a", "b"]) (by decide)
  exact ⟨a, writers, h1, h3⟩

end appconfig
